import Mathlib

set_option maxHeartbeats 1000000

/-!
Shallow embedding of the unoparty-gui repository (src/unopartygui/api.py and
src/unopartygui/gui.py) for checking the specification's claims.

The embedding covers:
* the RPC Gateway `UnopartydAPI.call` (quantity coercion, locked-wallet
  retry flow, `DecimalEncoder` post-processing, `UnopartydRPCError`);
* the Status Loop `GUI.refreshStatus` / `GUI.notifyPlugins`.

Machine values are modelled with `Nat` / `Int`; Python `decimal.Decimal`
values are modelled as an integer mantissa with a base-ten scale; the
environment (the external `clientapi` daemon and the user's dialog inputs)
is modelled as an explicit script of outcomes.
-/

/-! ### Digit-string utilities

Used to model Python's `format(obj, '.8f')` (api.py line 25) and `int(...)`
(api.py line 101) at the level of character lists. -/

/-- One step of base-ten accumulation while reading digits left to right. -/
def digAccum (a d : Nat) : Nat := a * 10 + d

/-- Numeric value of a digit character (valid on the characters '0'-'9'). -/
def charDigitVal (c : Char) : Nat := c.toNat - 48

/-- Read a list of digit characters left to right as a natural number. -/
def parseNatChars (l : List Char) : Nat :=
  l.foldl (fun a c => digAccum a (charDigitVal c)) 0

/-- The `k` most significant of the base-ten digits of `n % 10 ^ k`,
zero padded to exactly `k` digits. -/
def padDigitsBE : Nat → Nat → List Nat
  | 0, _ => []
  | k + 1, n => (n / 10 ^ k) % 10 :: padDigitsBE k n

/-- Base-ten digits of `n`, least significant first, empty for zero. -/
def natDigitsRev (n : Nat) : List Nat :=
  if h : n = 0 then [] else n % 10 :: natDigitsRev (n / 10)
termination_by n
decreasing_by exact Nat.div_lt_self (Nat.pos_of_ne_zero h) (by omega)

/-- Base-ten digits of `n`, most significant first, empty for zero. -/
def natDigitsBE (n : Nat) : List Nat := (natDigitsRev n).reverse

/-- Decimal rendering of a natural number as characters (as Python `str`). -/
def natCharsBE (n : Nat) : List Char :=
  if n = 0 then ['0'] else (natDigitsBE n).map Nat.digitChar

/-- The exactly-eight fractional digits of a quantity of `10 ^ (-8)` units. -/
def fracCharsBE (n : Nat) : List Char := (padDigitsBE 8 n).map Nat.digitChar

/-- Split a character list into its maximal leading run of digit characters
and the remainder. -/
def takeDigits : List Char → List Char × List Char
  | [] => ([], [])
  | c :: r =>
    if c.isDigit then (c :: (takeDigits r).1, (takeDigits r).2)
    else ([], c :: r)

/-! ### Python `decimal.Decimal` and `DecimalEncoder` (api.py lines 22-27)

A finite `Decimal` is modelled as `mant * 10 ^ (-scale)`.  `DecimalEncoder`
(api.py line 25) renders such a value with `format(obj, '.8f')`: fixed-point,
exactly eight fractional digits, rounding half to even (the default rounding
of Python's decimal module). -/

/-- A finite Python `decimal.Decimal`: the value `mant / 10 ^ scale`. -/
structure Dec where
  mant : Int
  scale : Nat

/-- Exact rational value of a modelled decimal. -/
def decValue (d : Dec) : ℚ := (d.mant : ℚ) / 10 ^ d.scale

/-- Round `m / d` (for `d > 0`) to the nearest integer, ties to even:
the rounding used by Python's decimal formatting. -/
def roundHalfEven (m d : Int) : Int :=
  if 2 * Int.emod m d < d then Int.ediv m d
  else if d < 2 * Int.emod m d then Int.ediv m d + 1
  else if Int.emod (Int.ediv m d) 2 = 0 then Int.ediv m d else Int.ediv m d + 1

/-- The integer number of `10 ^ (-8)` units produced by `format(obj, '.8f')`
on the decimal `d` (api.py line 25): exact when the scale is at most eight,
otherwise rounded half to even. -/
def format8 (d : Dec) : Int :=
  if d.scale ≤ 8 then d.mant * 10 ^ (8 - d.scale)
  else roundHalfEven d.mant (10 ^ (d.scale - 8))

/-- The character string produced by `format(obj, '.8f')` for a value of
`u` units of `10 ^ (-8)`: optional minus sign, integer part, a dot, and
exactly eight fractional digits. -/
def fixed8Chars (u : Int) : List Char :=
  (if u < 0 then ['-'] else []) ++
    natCharsBE (u.natAbs / 10 ^ 8) ++ '.' :: fracCharsBE (u.natAbs % 10 ^ 8)

/-- Parse an unsigned fixed-point string: digits, a dot, exactly eight
fractional digits, nothing else. -/
def parseFixed8Pos (l : List Char) : Option ℚ :=
  if (takeDigits l).1 = [] then none
  else
    match (takeDigits l).2 with
    | '.' :: r2 =>
      if (takeDigits r2).1.length = 8 ∧ (takeDigits r2).2 = [] then
        some ((parseNatChars (takeDigits l).1 : ℚ) +
          (parseNatChars (takeDigits r2).1 : ℚ) / 10 ^ 8)
      else none
    | _ => none

/-- Parse a fixed-point decimal string with optional leading minus sign. -/
def parseFixed8 (l : List Char) : Option ℚ :=
  match l with
  | [] => none
  | c :: r =>
    if c = '-' then (parseFixed8Pos r).map (fun q => -q)
    else parseFixed8Pos (c :: r)

/-- The string has a decimal separator with exactly eight digits after it
(and no separator before it). -/
def Fixed8Shape (l : List Char) : Prop :=
  ∃ a b, l = a ++ '.' :: b ∧ '.' ∉ a ∧ b.length = 8 ∧ ∀ c ∈ b, c.isDigit = true

/-! ### JSON-compatible values

The result of `clientapi.call` is passed through
`json.loads(json.dumps(result, cls=DecimalEncoder))` (api.py lines 118-119),
which replaces every `Decimal` by its `'.8f'` fixed-point string and leaves
everything else unchanged.  Arrays and objects are separate mutual
inductives so that structural recursion stays simple. -/

mutual
inductive JVal where
  | jnull : JVal
  | jbool (b : Bool) : JVal
  | jint (n : Int) : JVal
  | jstr (s : List Char) : JVal
  | jdec (d : Dec) : JVal
  | jarr (es : JElems) : JVal
  | jobj (fs : JFields) : JVal
inductive JElems where
  | nil : JElems
  | cons (hd : JVal) (tl : JElems) : JElems
inductive JFields where
  | nil : JFields
  | cons (key : List Char) (val : JVal) (tl : JFields) : JFields
end

mutual
/-- Post-processing of a result, api.py lines 118-119: the composite of
`json.dumps` with `DecimalEncoder` and `json.loads`, which replaces every
decimal by its `'.8f'` string. -/
def encodeV : JVal → JVal
  | .jnull => .jnull
  | .jbool b => .jbool b
  | .jint n => .jint n
  | .jstr s => .jstr s
  | .jdec d => .jstr (fixed8Chars (format8 d))
  | .jarr es => .jarr (encodeE es)
  | .jobj fs => .jobj (encodeF fs)
/-- Post-processing mapped over array elements. -/
def encodeE : JElems → JElems
  | .nil => .nil
  | .cons v tl => .cons (encodeV v) (encodeE tl)
/-- Post-processing mapped over object fields. -/
def encodeF : JFields → JFields
  | .nil => .nil
  | .cons k v tl => .cons k (encodeV v) (encodeF tl)
end

mutual
/-- Whether a value still contains a decimal-typed node anywhere. -/
def hasDecV : JVal → Bool
  | .jnull => false
  | .jbool _ => false
  | .jint _ => false
  | .jstr _ => false
  | .jdec _ => true
  | .jarr es => hasDecE es
  | .jobj fs => hasDecF fs
/-- Whether some array element still contains a decimal-typed node. -/
def hasDecE : JElems → Bool
  | .nil => false
  | .cons v tl => hasDecV v || hasDecE tl
/-- Whether some object field still contains a decimal-typed node. -/
def hasDecF : JFields → Bool
  | .nil => false
  | .cons _ v tl => hasDecV v || hasDecF tl
end

mutual
/-- Relates an input value to its post-processed output: identical shape,
except that every decimal-typed node is replaced, in its place, by a string
with a decimal separator followed by exactly eight digits which parses back
to a rational within `10 ^ (-8)` of the original decimal value. -/
inductive RelV : JVal → JVal → Prop where
  | rnull : RelV JVal.jnull JVal.jnull
  | rbool (b : Bool) : RelV (JVal.jbool b) (JVal.jbool b)
  | rint (n : Int) : RelV (JVal.jint n) (JVal.jint n)
  | rstr (s : List Char) : RelV (JVal.jstr s) (JVal.jstr s)
  | rdec (d : Dec) (t : List Char) (q : ℚ) :
      Fixed8Shape t → parseFixed8 t = some q →
      |q - decValue d| ≤ 1 / 10 ^ 8 → RelV (JVal.jdec d) (JVal.jstr t)
  | rarr (es fs : JElems) : RelE es fs → RelV (JVal.jarr es) (JVal.jarr fs)
  | robj (gs hs : JFields) : RelF gs hs → RelV (JVal.jobj gs) (JVal.jobj hs)
/-- Element-wise version of `RelV` for arrays. -/
inductive RelE : JElems → JElems → Prop where
  | rnil : RelE JElems.nil JElems.nil
  | rcons (v w : JVal) (tl tl2 : JElems) :
      RelV v w → RelE tl tl2 → RelE (JElems.cons v tl) (JElems.cons w tl2)
/-- Field-wise version of `RelV` for objects (keys unchanged). -/
inductive RelF : JFields → JFields → Prop where
  | rnil : RelF JFields.nil JFields.nil
  | rcons (k : List Char) (v w : JVal) (tl tl2 : JFields) :
      RelV v w → RelF tl tl2 → RelF (JFields.cons k v tl) (JFields.cons k w tl2)
end

/-! ### Parameter pre-processing (api.py lines 98-103)

`call` iterates over the keys of `query['params']` and replaces the value of
every key named `quantity` by `int(value)`; the whole loop is wrapped in a
bare `try/except: pass`, so the first failing conversion aborts the loop,
keeping earlier in-place mutations and leaving the rest untouched. -/

/-- A Python value appearing in `params`: a string, an int, or some other
object on which `int(...)` fails. -/
inductive PyVal where
  | vstr (s : List Char)
  | vint (n : Int)
  | vother

/-- Digits-only reading of a character list, `none` if empty or non-digit. -/
def digitsToNat (l : List Char) : Option Nat :=
  if l ≠ [] ∧ ∀ c ∈ l, c.isDigit = true then some (parseNatChars l) else none

/-- Python `int(s)` on a string: optional sign followed by digits. -/
def pyIntOfChars (s : List Char) : Option Int :=
  match s with
  | '-' :: r => (digitsToNat r).map (fun n => -(n : Int))
  | '+' :: r => (digitsToNat r).map (fun n => (n : Int))
  | _ => (digitsToNat s).map (fun n => (n : Int))

/-- Python `int(value)` on a params value; `none` models a raised exception. -/
def intOfPyVal : PyVal → Option Int
  | .vint n => some n
  | .vstr s => pyIntOfChars s
  | .vother => none

/-- The params mapping after the quantity-coercion loop of api.py
lines 98-103 (insertion-ordered association list, as a Python dict). -/
def coerceQuantities : List (String × PyVal) → List (String × PyVal)
  | [] => []
  | (k, v) :: rest =>
    if k = "quantity" then
      match intOfPyVal v with
      | some n => (k, PyVal.vint n) :: coerceQuantities rest
      | none => (k, v) :: rest
    else (k, v) :: coerceQuantities rest

/-- Dict lookup: the value of the first entry with the given key. -/
def pyLookup (k : String) : List (String × PyVal) → Option PyVal
  | [] => none
  | (k2, v) :: rest => if k = k2 then some v else pyLookup k rest

/-! ### `UnopartydRPCError` and the call flow (api.py lines 30-40, 92-124) -/

/-- A propagating Python exception: either a plain `Exception(message)` or a
typed `UnopartydRPCError` instance used as an exception. -/
inductive PyExc where
  | plain (msg : List Char)
  | typed (msg : List Char)

/-- Python `str(e)` of a propagating exception: its message. -/
def PyExc.str : PyExc → List Char
  | .plain m => m
  | .typed m => m

/-- A constructed `UnopartydRPCError` object (never actually obtained,
because the constructor raises first). -/
structure RPCErrorInstance where
  message : List Char

/-- Constructing `UnopartydRPCError(message)` (api.py lines 30-40): the
constructor shows a modal message box with the message and then itself
executes `raise Exception(message)`, so evaluation always ends in a plain
exception instead of returning an instance.  The first component is the
list of message boxes displayed. -/
def mkUnopartydRPCError (message : List Char) :
    List (List Char) × Except PyExc RPCErrorInstance :=
  ([message], Except.error (PyExc.plain message))

/-- The statement `raise UnopartydRPCError(message)`: if constructing the
instance already raises, that exception propagates; only if construction
returned would the typed error itself be raised. -/
def raiseRPC (message : List Char) : List (List Char) × PyExc :=
  match mkUnopartydRPCError message with
  | (boxes, Except.error e) => (boxes, e)
  | (boxes, Except.ok inst) => (boxes, PyExc.typed inst.message)

/-- Outcome of one issue of `clientapi.call(query['method'], query['params'])`
(api.py line 106), as scripted by the environment: a successful result, a
`LockedWalletError` (together with the passphrase the user then types and
the outcome of the subsequent `unlock` call), or another exception. -/
inductive AttemptOutcome where
  | ok (r : JVal)
  | locked (passphrase : List Char) (unlockOk : Bool) (unlockErrMsg : List Char)
  | err (msg : List Char)

/-- What `UnopartydAPI.call` produces for its caller: a native structured
value (`return_dict=True`), a `QVariant`-wrapped value (`return_dict=False`),
or a propagating exception. -/
inductive CallResult where
  | native (v : JVal)
  | variant (v : JVal)
  | exn (e : PyExc)

/-- One run of `UnopartydAPI.call`: its result (`none` while still running
when the fuel bound is hit, modelling non-termination), the number of times
the original request was issued to `clientapi.call`, and the modal message
boxes shown. -/
structure CallRun where
  result : Option CallResult
  attempts : Nat
  boxes : List (List Char)

/-- `UnopartydAPI.call` (api.py lines 92-124) against a script of attempt
outcomes, indexed from `k`.  On `LockedWalletError` the code prompts for a
passphrase, calls `unlock`, and on success executes `return self.call(query)`
- a full recursive call made without the `return_dict` argument, so the
retry always runs with `return_dict=False`.  Exceptions escaping the unlock
or the recursive call are caught and re-raised through `UnopartydRPCError`.
Fuel bounds the recursion depth; `result = none` means the call was still
running when the fuel ran out. -/
def callModel (script : Nat → AttemptOutcome) : Bool → Nat → Nat → CallRun
  | _, 0, _ => ⟨none, 0, []⟩
  | returnDict, fuel + 1, k =>
    match script k with
    | .ok r =>
      ⟨some (if returnDict then CallResult.native (encodeV r)
             else CallResult.variant (encodeV r)), 1, []⟩
    | .err m => ⟨some (CallResult.exn (raiseRPC m).2), 1, (raiseRPC m).1⟩
    | .locked _pw uOk uMsg =>
      if uOk then
        match callModel script false fuel (k + 1) with
        | ⟨none, a, bs⟩ => ⟨none, a + 1, bs⟩
        | ⟨some (CallResult.exn e), a, bs⟩ =>
          ⟨some (CallResult.exn (raiseRPC (PyExc.str e)).2), a + 1,
            bs ++ (raiseRPC (PyExc.str e)).1⟩
        | ⟨some (CallResult.native v), a, bs⟩ =>
          ⟨some (CallResult.native v), a + 1, bs⟩
        | ⟨some (CallResult.variant v), a, bs⟩ =>
          ⟨some (CallResult.variant v), a + 1, bs⟩
      else ⟨some (CallResult.exn (raiseRPC uMsg).2), 1, (raiseRPC uMsg).1⟩

/-! ### The Status Loop (gui.py lines 100, 126-164) -/

/-- The mutable state of `GUI` that `refreshStatus` reads and writes:
`currentBlock` (gui.py line 100, initially `None`) and whether
`self.plugins` exists (set by `loadPlugins` after the first successful
tick). -/
structure LoopState where
  currentBlock : Option Int
  pluginsLoaded : Bool

/-- Environment outcome of one tick: either both RPC calls succeed, giving
the two heights, with `fanoutOk = false` when a plugin `onMessage` handler
raises during the notification fan-out; or some RPC call raises. -/
inductive TickOutcome where
  | ok (serverLast walletLast : Int) (fanoutOk : Bool)
  | rpcErr

/-- Observable outcome of one `refreshStatus` tick: a boolean return value
together with the payload passed to `notifyPlugins` this tick (if any), or
the fatal-startup path, which opens the configuration dialog and calls
`exit()` (gui.py lines 149-153). -/
inductive TickRes where
  | ret (ok : Bool) (notified : Option Int)
  | fatalConfigExit

/-- One tick of `GUI.refreshStatus` (gui.py lines 126-156).  On a change of
server height relative to a previously recorded height, `notifyPlugins` runs
before `self.currentBlock` is assigned (lines 140-143), so an exception
raised during the fan-out leaves `currentBlock` unchanged and falls into the
generic handler (lines 147-156). -/
def refreshStatus (st : LoopState) : TickOutcome → LoopState × TickRes
  | .ok sb _wb fanoutOk =>
    match st.currentBlock with
    | none => (⟨some sb, st.pluginsLoaded⟩, TickRes.ret true none)
    | some cb =>
      if cb ≠ sb then
        if fanoutOk then (⟨some sb, st.pluginsLoaded⟩, TickRes.ret true (some sb))
        else
          if st.pluginsLoaded then (st, TickRes.ret false (some sb))
          else (st, TickRes.fatalConfigExit)
      else (⟨some sb, st.pluginsLoaded⟩, TickRes.ret true none)
  | .rpcErr =>
    if st.pluginsLoaded then (st, TickRes.ret false none)
    else (st, TickRes.fatalConfigExit)

/-- A run of successive timer ticks: collects the payloads passed to
`notifyPlugins` in order, and whether the fatal-startup path was taken
(which stops the loop). -/
def runTicks (st : LoopState) : List TickOutcome → List Int × Bool
  | [] => ([], false)
  | o :: os =>
    match refreshStatus st o with
    | (st2, TickRes.ret _ e) =>
      (e.toList ++ (runTicks st2 os).1, (runTicks st2 os).2)
    | (_, TickRes.fatalConfigExit) => ([], true)

/-- A sequence of fully successful ticks observing the given server heights. -/
def okTicks (hs : List Int) : List TickOutcome :=
  hs.map (fun h => TickOutcome.ok h 0 true)

/-- The heights notified by a run of successful ticks, given the previously
recorded height: one notification per observed change. -/
def emittedOfHeights : Option Int → List Int → List Int
  | _, [] => []
  | none, h :: t => emittedOfHeights (some h) t
  | some c, h :: t =>
    if c ≠ h then h :: emittedOfHeights (some h) t
    else emittedOfHeights (some h) t

/-- A loaded plugin, as seen by `notifyPlugins`: its identity and whether it
exposes an `onMessage` entry point. -/
structure Plugin where
  pname : String
  hasOnMessage : Bool

/-- A delivered `onMessage` invocation. -/
structure NotifyCall where
  plugin : String
  messageName : String
  blockIndex : Int

/-- The loop body of `GUI.notifyPlugins` (gui.py lines 161-163): each plugin
in registration order is called only if it exposes `onMessage`. -/
def notifyLoop : List Plugin → String → Int → List NotifyCall
  | [], _, _ => []
  | p :: ps, mn, bi =>
    if p.hasOnMessage then ⟨p.pname, mn, bi⟩ :: notifyLoop ps mn bi
    else notifyLoop ps mn bi

/-- `GUI.notifyPlugins` (gui.py lines 158-164): nothing happens when the
plugin registry does not exist yet; otherwise the loop runs. -/
def notifyPlugins (plugins : Option (List Plugin)) (mn : String) (bi : Int) :
    List NotifyCall :=
  match plugins with
  | none => []
  | some ps => notifyLoop ps mn bi

/-- Whether a tick outcome is a failure (returned `False` or exited). -/
def TickRes.failed : TickRes → Bool
  | .ret true _ => false
  | .ret false _ => true
  | .fatalConfigExit => true

/-- Script refuting C1 as stated: the call fails with a locked wallet, the
unlock succeeds, the re-issued call fails with a locked wallet again, the
second unlock succeeds, and the next re-issue returns a result. -/
def cexScriptC1 : Nat → AttemptOutcome := fun k =>
  if k < 2 then AttemptOutcome.locked [] true [] else AttemptOutcome.ok JVal.jnull

/-- Script for C7: the call fails with a locked wallet, the unlock
succeeds, and the re-issued call returns a result. -/
def c7Script : Nat → AttemptOutcome := fun k =>
  if k = 0 then AttemptOutcome.locked ['p'] true []
  else AttemptOutcome.ok JVal.jnull

/-! ### Lemmas about the digit utilities -/

theorem padDigitsBE_length (k n : Nat) : (padDigitsBE k n).length = k := by
  induction k generalizing n with
  | zero => rfl
  | succ k ih => simp [padDigitsBE, ih]

theorem padDigitsBE_lt_ten (k n : Nat) : ∀ d ∈ padDigitsBE k n, d < 10 := by
  induction k generalizing n with
  | zero => simp [padDigitsBE]
  | succ k ih =>
    intro d hd
    simp only [padDigitsBE, List.mem_cons] at hd
    rcases hd with h | h
    · omega
    · exact ih n d h

theorem foldl_padDigitsBE (k : Nat) : ∀ n a,
    List.foldl digAccum a (padDigitsBE k n) = a * 10 ^ k + n % 10 ^ k := by
  induction k with
  | zero => intro n a; simp [padDigitsBE, Nat.mod_one]
  | succ k ih =>
    intro n a
    have hsplit : n % 10 ^ (k + 1) = (n / 10 ^ k % 10) * 10 ^ k + n % 10 ^ k := by
      have h1 : n % (10 ^ k * 10) = n % 10 ^ k + 10 ^ k * (n / 10 ^ k % 10) :=
        Nat.mod_mul
      have h2 : (10 : Nat) ^ (k + 1) = 10 ^ k * 10 := by ring
      rw [h2, h1]; ring
    simp only [padDigitsBE, List.foldl_cons, ih, digAccum]
    rw [hsplit]; ring

theorem natDigitsRev_lt_ten (n : Nat) : ∀ d ∈ natDigitsRev n, d < 10 := by
  induction n using Nat.strong_induction_on with
  | _ n ih =>
    intro d hd
    rw [natDigitsRev] at hd
    by_cases h : n = 0
    · simp [h] at hd
    · simp only [h, dite_false, List.mem_cons] at hd
      rcases hd with h1 | h1
      · omega
      · exact ih (n / 10) (Nat.div_lt_self (Nat.pos_of_ne_zero h) (by omega)) d h1

theorem foldl_natDigitsBE (n : Nat) :
    List.foldl digAccum 0 (natDigitsRev n).reverse = n := by
  induction n using Nat.strong_induction_on with
  | _ n ih =>
    rw [natDigitsRev]
    by_cases h : n = 0
    · simp [h]
    · simp only [h, dite_false, List.reverse_cons, List.foldl_append,
        List.foldl_cons, List.foldl_nil]
      rw [ih (n / 10) (Nat.div_lt_self (Nat.pos_of_ne_zero h) (by omega))]
      simp [digAccum]
      omega

theorem charDigitVal_digitChar (d : Nat) (hd : d < 10) :
    charDigitVal (Nat.digitChar d) = d := by
  interval_cases d <;> rfl

theorem isDigit_digitChar (d : Nat) (hd : d < 10) :
    (Nat.digitChar d).isDigit = true := by
  interval_cases d <;> decide

theorem digitChar_ne_neg (d : Nat) (hd : d < 10) : Nat.digitChar d ≠ '-' := by
  interval_cases d <;> decide

theorem isDigit_ne_dot {c : Char} (h : c.isDigit = true) : c ≠ '.' := by
  intro he; subst he; simp at h

theorem parseNatChars_map_digitChar (l : List Nat) (hl : ∀ d ∈ l, d < 10) :
    parseNatChars (l.map Nat.digitChar) = List.foldl digAccum 0 l := by
  unfold parseNatChars
  generalize 0 = a
  induction l generalizing a with
  | nil => rfl
  | cons d t ih =>
    simp only [List.map_cons, List.foldl_cons]
    rw [charDigitVal_digitChar d (hl d (by simp))]
    exact ih (fun x hx => hl x (by simp [hx])) _

theorem natCharsBE_parse (n : Nat) : parseNatChars (natCharsBE n) = n := by
  unfold natCharsBE
  by_cases h : n = 0
  · simp [h]; rfl
  · simp only [h, if_false]
    rw [parseNatChars_map_digitChar _ (by
      intro d hd
      exact natDigitsRev_lt_ten n d (by simpa [natDigitsBE] using hd))]
    exact foldl_natDigitsBE n

theorem natCharsBE_digits (n : Nat) : ∀ c ∈ natCharsBE n, c.isDigit = true := by
  intro c hc
  unfold natCharsBE at hc
  by_cases h : n = 0
  · simp [h] at hc; subst hc; decide
  · simp only [h, if_false, List.mem_map] at hc
    obtain ⟨d, hd, rfl⟩ := hc
    exact isDigit_digitChar d (natDigitsRev_lt_ten n d (by simpa [natDigitsBE] using hd))

theorem natCharsBE_ne_nil (n : Nat) : natCharsBE n ≠ [] := by
  unfold natCharsBE
  by_cases h : n = 0
  · simp [h]
  · simp only [h, if_false]
    intro he
    rw [List.map_eq_nil_iff] at he
    unfold natDigitsBE at he
    rw [List.reverse_eq_nil_iff] at he
    rw [natDigitsRev] at he
    simp [h] at he

theorem fracCharsBE_parse (n : Nat) (hn : n < 10 ^ 8) :
    parseNatChars (fracCharsBE n) = n := by
  unfold fracCharsBE
  rw [parseNatChars_map_digitChar _ (padDigitsBE_lt_ten 8 n)]
  rw [foldl_padDigitsBE]
  simpa using Nat.mod_eq_of_lt hn

theorem fracCharsBE_length (n : Nat) : (fracCharsBE n).length = 8 := by
  simp [fracCharsBE, padDigitsBE_length]

theorem fracCharsBE_digits (n : Nat) : ∀ c ∈ fracCharsBE n, c.isDigit = true := by
  intro c hc
  simp only [fracCharsBE, List.mem_map] at hc
  obtain ⟨d, hd, rfl⟩ := hc
  exact isDigit_digitChar d (padDigitsBE_lt_ten 8 n d hd)

theorem takeDigits_append (a b : List Char) (ha : ∀ c ∈ a, c.isDigit = true)
    (hb : ∀ c, b.head? = some c → c.isDigit = false) :
    takeDigits (a ++ b) = (a, b) := by
  induction a with
  | nil =>
    simp only [List.nil_append]
    cases b with
    | nil => rfl
    | cons c r =>
      have := hb c rfl
      simp [takeDigits, this]
  | cons c t ih =>
    have hc : c.isDigit = true := ha c (by simp)
    simp only [List.cons_append, takeDigits, hc, if_true, List.append_eq]
    rw [ih (fun x hx => ha x (by simp [hx]))]

/-! ### Correctness of the fixed-8 formatting -/

theorem roundHalfEven_err (m d : Int) (hd : 0 < d) :
    2 * |roundHalfEven m d * d - m| ≤ d := by
  have h1 : d * Int.ediv m d + Int.emod m d = m := Int.ediv_add_emod m d
  have h2 : 0 ≤ Int.emod m d := Int.emod_nonneg m (by omega)
  have h3 : Int.emod m d < d := Int.emod_lt_of_pos m hd
  have e1 : Int.ediv m d * d - m = -(Int.emod m d) := by linear_combination h1
  have e2 : (Int.ediv m d + 1) * d - m = d - Int.emod m d := by
    linear_combination h1
  unfold roundHalfEven
  split_ifs with ha hb hc
  · rw [e1, abs_neg, abs_of_nonneg h2]; omega
  · rw [e2, abs_of_nonneg (by omega)]; omega
  · rw [e1, abs_neg, abs_of_nonneg h2]; omega
  · rw [e2, abs_of_nonneg (by omega)]; omega

theorem format8_exact (d : Dec) (h : d.scale ≤ 8) :
    ((format8 d : ℚ) / 10 ^ 8) = decValue d := by
  unfold format8 decValue
  rw [if_pos h]
  push_cast
  have h8 : (10 : ℚ) ^ 8 = 10 ^ (8 - d.scale) * 10 ^ d.scale := by
    rw [← pow_add]
    congr 1
    omega
  rw [h8, mul_comm ((d.mant : ℚ)) _, mul_div_mul_left]
  exact pow_ne_zero _ (by norm_num)

theorem rhe_close (m : Int) (t : Nat) :
    |((roundHalfEven m (10 ^ t) : ℚ) / 10 ^ 8) - (m : ℚ) / 10 ^ (8 + t)| ≤
      1 / 10 ^ 8 := by
  have hdpos : (0 : Int) < 10 ^ t := by positivity
  have hbound := roundHalfEven_err m (10 ^ t) hdpos
  have hXnn := abs_nonneg (roundHalfEven m (10 ^ t) * 10 ^ t - m)
  have hX : |roundHalfEven m (10 ^ t) * 10 ^ t - m| ≤ 10 ^ t := by linarith
  have e0 : ((roundHalfEven m (10 ^ t) : ℚ) / 10 ^ 8) - (m : ℚ) / 10 ^ (8 + t)
      = ((roundHalfEven m (10 ^ t) * 10 ^ t - m : ℤ) : ℚ) / (10 ^ 8 * 10 ^ t) := by
    push_cast
    rw [pow_add]
    field_simp
    ring
  rw [e0, abs_div, abs_of_pos (by positivity : (0 : ℚ) < 10 ^ 8 * 10 ^ t),
    div_le_div_iff₀ (by positivity) (by positivity)]
  calc |((roundHalfEven m (10 ^ t) * 10 ^ t - m : ℤ) : ℚ)| * 10 ^ 8
      = ((|roundHalfEven m (10 ^ t) * 10 ^ t - m| : ℤ) : ℚ) * 10 ^ 8 := by
        rw [Int.cast_abs]
    _ ≤ ((10 ^ t : ℤ) : ℚ) * 10 ^ 8 := by
        apply mul_le_mul_of_nonneg_right _ (by positivity)
        exact_mod_cast hX
    _ = 1 * (10 ^ 8 * 10 ^ t) := by push_cast; ring

theorem format8_close (d : Dec) :
    |((format8 d : ℚ) / 10 ^ 8) - decValue d| ≤ 1 / 10 ^ 8 := by
  by_cases h : d.scale ≤ 8
  · rw [format8_exact d h]
    rw [sub_self, abs_zero]
    positivity
  · have hs : d.scale = 8 + (d.scale - 8) := by omega
    have hform : format8 d = roundHalfEven d.mant (10 ^ (d.scale - 8)) := by
      unfold format8
      rw [if_neg h]
    have hval : decValue d = (d.mant : ℚ) / 10 ^ (8 + (d.scale - 8)) := by
      unfold decValue
      rw [← hs]
    rw [hform, hval]
    exact rhe_close d.mant (d.scale - 8)

theorem parseFixed8Pos_parts (q8 r8 : Nat) (hr : r8 < 10 ^ 8) :
    parseFixed8Pos (natCharsBE q8 ++ '.' :: fracCharsBE r8)
      = some ((q8 : ℚ) + (r8 : ℚ) / 10 ^ 8) := by
  have hdot : ∀ c : Char, ('.' :: fracCharsBE r8).head? = some c →
      c.isDigit = false := by
    intro c hc
    simp only [List.head?] at hc
    rw [← Option.some_inj.mp hc]
    decide
  have hfrac : takeDigits (fracCharsBE r8) = (fracCharsBE r8, []) := by
    have := takeDigits_append (fracCharsBE r8) [] (fracCharsBE_digits r8)
      (by intro c hc; simp at hc)
    simpa using this
  unfold parseFixed8Pos
  rw [takeDigits_append (natCharsBE q8) ('.' :: fracCharsBE r8)
    (natCharsBE_digits q8) hdot]
  simp only [hfrac, fracCharsBE_length r8, natCharsBE_parse,
    fracCharsBE_parse r8 hr, and_self, and_true, if_true, natCharsBE_ne_nil q8,
    if_false, ite_false, ite_true]

theorem parseFixed8_fixed8Chars (u : Int) :
    parseFixed8 (fixed8Chars u) = some ((u : ℚ) / 10 ^ 8) := by
  have hr : u.natAbs % 10 ^ 8 < 10 ^ 8 := Nat.mod_lt _ (by norm_num)
  have key := parseFixed8Pos_parts (u.natAbs / 10 ^ 8) (u.natAbs % 10 ^ 8) hr
  have hsum : (u.natAbs / 10 ^ 8) * 10 ^ 8 + u.natAbs % 10 ^ 8 = u.natAbs := by
    rw [mul_comm]
    exact Nat.div_add_mod _ _
  have hval : ((u.natAbs / 10 ^ 8 : Nat) : ℚ) + ((u.natAbs % 10 ^ 8 : Nat) : ℚ) / 10 ^ 8
      = (u.natAbs : ℚ) / 10 ^ 8 := by
    have hgen : (((u.natAbs / 10 ^ 8) * 10 ^ 8 + u.natAbs % 10 ^ 8 : Nat) : ℚ) / 10 ^ 8
        = ((u.natAbs / 10 ^ 8 : Nat) : ℚ) + ((u.natAbs % 10 ^ 8 : Nat) : ℚ) / 10 ^ 8 := by
      push_cast
      field_simp
      norm_num
    rw [← hgen, hsum]
  rw [hval] at key
  by_cases hu : u < 0
  · have hchars : fixed8Chars u
        = '-' :: (natCharsBE (u.natAbs / 10 ^ 8) ++ '.' :: fracCharsBE (u.natAbs % 10 ^ 8)) := by
      unfold fixed8Chars
      rw [if_pos hu]
      rfl
    have habs : ((u.natAbs : ℚ)) = -(u : ℚ) := by
      rw [Int.cast_natAbs, abs_of_neg hu]
      push_cast
      ring
    rw [hchars]
    simp only [parseFixed8, if_pos rfl]
    rw [key]
    simp [habs, neg_div]
  · have hchars : fixed8Chars u
        = natCharsBE (u.natAbs / 10 ^ 8) ++ '.' :: fracCharsBE (u.natAbs % 10 ^ 8) := by
      unfold fixed8Chars
      rw [if_neg hu]
      rfl
    have habs : ((u.natAbs : ℚ)) = (u : ℚ) := by
      rw [Int.cast_natAbs]
      rw [abs_of_nonneg (not_lt.mp hu)]
    obtain ⟨c, cs, hcons⟩ : ∃ c cs, natCharsBE (u.natAbs / 10 ^ 8) = c :: cs :=
      List.exists_cons_of_ne_nil (natCharsBE_ne_nil _)
    have hcdig : c.isDigit = true := natCharsBE_digits _ c (by rw [hcons]; simp)
    have hcne : c ≠ '-' := by
      intro he
      rw [he] at hcdig
      simp at hcdig
    rw [hchars, hcons, List.cons_append]
    simp only [parseFixed8, if_neg hcne]
    rw [← List.cons_append, ← hcons, key, habs]

theorem fixed8Shape_fixed8Chars (u : Int) : Fixed8Shape (fixed8Chars u) := by
  refine ⟨(if u < 0 then ['-'] else []) ++ natCharsBE (u.natAbs / 10 ^ 8),
    fracCharsBE (u.natAbs % 10 ^ 8), ?_, ?_, fracCharsBE_length _,
    fracCharsBE_digits _⟩
  · unfold fixed8Chars
    rw [List.append_assoc]
  · intro hmem
    rw [List.mem_append] at hmem
    rcases hmem with hm | hm
    · by_cases h : u < 0
      · rw [if_pos h] at hm
        simp at hm
      · rw [if_neg h] at hm
        simp at hm
    · exact absurd (natCharsBE_digits _ '.' hm) (by decide)

mutual
theorem relVEnc : ∀ v : JVal, RelV v (encodeV v)
  | .jnull => RelV.rnull
  | .jbool b => RelV.rbool b
  | .jint n => RelV.rint n
  | .jstr s => RelV.rstr s
  | .jdec d => RelV.rdec d (fixed8Chars (format8 d)) ((format8 d : ℚ) / 10 ^ 8)
      (fixed8Shape_fixed8Chars _) (parseFixed8_fixed8Chars _) (format8_close d)
  | .jarr es => RelV.rarr es (encodeE es) (relEEnc es)
  | .jobj fs => RelV.robj fs (encodeF fs) (relFEnc fs)
theorem relEEnc : ∀ es : JElems, RelE es (encodeE es)
  | .nil => RelE.rnil
  | .cons v tl => RelE.rcons v (encodeV v) tl (encodeE tl) (relVEnc v) (relEEnc tl)
theorem relFEnc : ∀ fs : JFields, RelF fs (encodeF fs)
  | .nil => RelF.rnil
  | .cons k v tl => RelF.rcons k v (encodeV v) tl (encodeF tl) (relVEnc v) (relFEnc tl)
end

mutual
theorem hasDecVEnc : ∀ v : JVal, hasDecV (encodeV v) = false
  | .jnull => rfl
  | .jbool _ => rfl
  | .jint _ => rfl
  | .jstr _ => rfl
  | .jdec _ => rfl
  | .jarr es => hasDecEEnc es
  | .jobj fs => hasDecFEnc fs
theorem hasDecEEnc : ∀ es : JElems, hasDecE (encodeE es) = false
  | .nil => rfl
  | .cons v tl => by
      show (hasDecV (encodeV v) || hasDecE (encodeE tl)) = false
      rw [hasDecVEnc v, hasDecEEnc tl]
      rfl
theorem hasDecFEnc : ∀ fs : JFields, hasDecF (encodeF fs) = false
  | .nil => rfl
  | .cons k v tl => by
      show (hasDecV (encodeV v) || hasDecF (encodeF tl)) = false
      rw [hasDecVEnc v, hasDecFEnc tl]
      rfl
end

/-- C3: for every decimal-typed value in a result returned by the external
API, the Gateway's post-processed output (api.py lines 117-119, via
`DecimalEncoder`, api.py lines 22-27) contains in its place a string with
exactly eight digits after the decimal separator which parses back to a
rational within `10 ^ (-8)` of the original decimal value, and the output
contains no decimal-typed (binary floating-point) node anywhere, so callers
never receive a float for such a field. -/
theorem c3_decimal_fixed8 (v : JVal) :
    RelV v (encodeV v) ∧ hasDecV (encodeV v) = false :=
  ⟨relVEnc v, hasDecVEnc v⟩

/-! ### Quantity coercion lemmas (claim C4) -/

theorem coerce_lookup_some (v : PyVal) (n : Int) :
    ∀ params : List (String × PyVal),
      pyLookup "quantity" params = some v → intOfPyVal v = some n →
      pyLookup "quantity" (coerceQuantities params) = some (PyVal.vint n) := by
  intro params
  induction params with
  | nil => intro hl _; simp [pyLookup] at hl
  | cons p rest ih =>
    obtain ⟨k2, v2⟩ := p
    intro hl hv
    by_cases hq : k2 = "quantity"
    · subst hq
      simp only [pyLookup, if_true, ite_true, Option.some_inj] at hl
      subst hl
      simp [coerceQuantities, hv, pyLookup]
    · have hne : ¬("quantity" = k2) := fun h => hq h.symm
      simp only [pyLookup, if_neg hne] at hl
      simp [coerceQuantities, hq, pyLookup, if_neg hne, ih hl hv]

theorem coerce_lookup_none (v : PyVal) :
    ∀ params : List (String × PyVal),
      pyLookup "quantity" params = some v → intOfPyVal v = none →
      pyLookup "quantity" (coerceQuantities params) = some v := by
  intro params
  induction params with
  | nil => intro hl _; simp [pyLookup] at hl
  | cons p rest ih =>
    obtain ⟨k2, v2⟩ := p
    intro hl hv
    by_cases hq : k2 = "quantity"
    · subst hq
      simp only [pyLookup, if_true, ite_true, Option.some_inj] at hl
      subst hl
      simp [coerceQuantities, hv, pyLookup]
    · have hne : ¬("quantity" = k2) := fun h => hq h.symm
      simp only [pyLookup, if_neg hne] at hl
      simp [coerceQuantities, hq, pyLookup, if_neg hne, ih hl hv]

theorem coerce_lookup_other (k : String) (hk : k ≠ "quantity") :
    ∀ params : List (String × PyVal),
      pyLookup k (coerceQuantities params) = pyLookup k params := by
  intro params
  induction params with
  | nil => rfl
  | cons p rest ih =>
    obtain ⟨k2, v2⟩ := p
    by_cases hq : k2 = "quantity"
    · subst hq
      have hne : ¬(k = "quantity") := hk
      cases hv : intOfPyVal v2 with
      | some n => simp [coerceQuantities, hv, pyLookup, if_neg hne, ih]
      | none => simp [coerceQuantities, hv, pyLookup, if_neg hne]
    · by_cases hkk : k = k2
      · subst hkk
        simp [coerceQuantities, hq, pyLookup]
      · simp [coerceQuantities, hq, pyLookup, if_neg hkk, ih]

/-- C4: for every request whose params mapping contains a key named
`quantity` (api.py lines 98-103): a value on which `int(...)` succeeds
(in particular a numeric string) is delivered to the transport layer as an
integer-typed value; a value on which conversion fails is passed through
unchanged and the failure is non-fatal (the coercion is a total function);
keys with any other name are never modified. -/
theorem c4_quantity_coercion (params : List (String × PyVal)) :
    (∀ (v : PyVal) (n : Int),
      pyLookup "quantity" params = some v → intOfPyVal v = some n →
      pyLookup "quantity" (coerceQuantities params) = some (PyVal.vint n)) ∧
    (∀ v : PyVal,
      pyLookup "quantity" params = some v → intOfPyVal v = none →
      pyLookup "quantity" (coerceQuantities params) = some v) ∧
    (∀ k : String, k ≠ "quantity" →
      pyLookup k (coerceQuantities params) = pyLookup k params) :=
  ⟨fun v n hl hv => coerce_lookup_some v n params hl hv,
   fun v hl hv => coerce_lookup_none v params hl hv,
   fun k hk => coerce_lookup_other k hk params⟩

/-- Witness for C4 at a concrete params mapping: the numeric string "42"
under `quantity` is delivered as the integer 42, a non-numeric value under
`quantity` is passed through, and a differently-named key is untouched. -/
theorem c4_quantity_coercion_witness :
    pyLookup "quantity" (coerceQuantities
        [("quantity", PyVal.vstr ['4', '2']), ("fee", PyVal.vint 1)])
      = some (PyVal.vint 42) ∧
    pyLookup "quantity" (coerceQuantities [("quantity", PyVal.vother)])
      = some PyVal.vother ∧
    pyLookup "fee" (coerceQuantities
        [("quantity", PyVal.vstr ['4', '2']), ("fee", PyVal.vint 1)])
      = pyLookup "fee" [("quantity", PyVal.vstr ['4', '2']), ("fee", PyVal.vint 1)] :=
  ⟨(c4_quantity_coercion _).1 (PyVal.vstr ['4', '2']) 42 rfl rfl,
   (c4_quantity_coercion _).2.1 PyVal.vother rfl rfl,
   (c4_quantity_coercion _).2.2 "fee" (by decide)⟩

/-- C8: notifying all plugins of a new block (gui.py lines 158-164) is the
filter-map over the plugin list in registration order: a plugin without an
`onMessage` entry point is silently skipped and contributes no call, every
plugin that does expose one is still called, and the function is total, so
no error is raised on account of a missing entry point. -/
theorem c8_notify_skip (ps : List Plugin) (mn : String) (bi : Int) :
    notifyPlugins (some ps) mn bi
      = (ps.filter (fun p => p.hasOnMessage)).map
          (fun p => ⟨p.pname, mn, bi⟩) := by
  simp only [notifyPlugins]
  induction ps with
  | nil => rfl
  | cons p t ih =>
    cases h : p.hasOnMessage with
    | true => simp [notifyLoop, List.filter_cons, h, ih]
    | false => simp [notifyLoop, List.filter_cons, h, ih]

/-! ### Status Loop lemmas (claims C2, C5, C6, C9) -/

theorem runTicks_okTicks (hs : List Int) :
    ∀ c : Option Int, runTicks ⟨c, true⟩ (okTicks hs)
      = (emittedOfHeights c hs, false) := by
  induction hs with
  | nil => intro c; cases c <;> rfl
  | cons h t ih =>
    intro c
    simp only [okTicks] at ih
    cases c with
    | none => simp [okTicks, runTicks, refreshStatus, emittedOfHeights, ih]
    | some c0 =>
      by_cases hne : c0 ≠ h
      · simp [okTicks, runTicks, refreshStatus, emittedOfHeights, hne, ih]
      · push_neg at hne
        subst hne
        simp [okTicks, runTicks, refreshStatus, emittedOfHeights, ih]

theorem emitted_chain (hs : List Int) :
    ∀ c : Int, List.Chain' (· ≤ ·) (c :: hs) →
      List.Chain' (· ≤ ·) (c :: emittedOfHeights (some c) hs) := by
  induction hs with
  | nil => intro c _; simp [emittedOfHeights]
  | cons h1 t ih =>
    intro c hch
    rw [List.chain'_cons] at hch
    obtain ⟨hc, ht⟩ := hch
    by_cases hne : c ≠ h1
    · simp only [emittedOfHeights, if_pos hne]
      rw [List.chain'_cons]
      exact ⟨hc, ih h1 ht⟩
    · push_neg at hne
      subst hne
      simp only [emittedOfHeights, ite_not, if_pos rfl]
      exact ih c ht

/-- C2: from an uninitialized prior height (gui.py line 100), the Status
Loop observing server heights 100, 100, 101, 101, 103 over five successful
ticks notifies plugins exactly twice, with block_index 101 and then 103,
in that order; and for every run, a first successful poll from the
uninitialized state notifies nothing, whatever height it observes (and a
failed poll leaves the prior height uninitialized). -/
theorem c2_status_loop_transitions :
    runTicks ⟨none, true⟩ (okTicks [100, 100, 101, 101, 103])
      = ([101, 103], false) ∧
    (∀ (pl : Bool) (sb wb : Int) (fo : Bool),
      refreshStatus ⟨none, pl⟩ (TickOutcome.ok sb wb fo)
        = (⟨some sb, pl⟩, TickRes.ret true none)) ∧
    (∀ pl : Bool, refreshStatus ⟨none, pl⟩ TickOutcome.rpcErr
      = (⟨none, pl⟩,
          if pl then TickRes.ret false none else TickRes.fatalConfigExit)) := by
  refine ⟨by rfl, ?_, ?_⟩
  · intro pl sb wb fo
    rfl
  · intro pl
    cases pl <;> rfl

/-- C5: when a poll tick raises (gui.py lines 146-156), the failure is
fatal if and only if no plugins are loaded yet (the startup case): the
configuration prompt is opened and the session exits; with plugins loaded
the failure is swallowed, the tick returns `False` with the state
unchanged, and the run simply continues with the next scheduled tick and
no additional retry. -/
theorem c5_tick_failure_policy :
    (∀ st : LoopState, st.pluginsLoaded = false →
      refreshStatus st TickOutcome.rpcErr = (st, TickRes.fatalConfigExit)) ∧
    (∀ st : LoopState, st.pluginsLoaded = true →
      refreshStatus st TickOutcome.rpcErr = (st, TickRes.ret false none)) ∧
    (∀ (st : LoopState) (os : List TickOutcome), st.pluginsLoaded = true →
      runTicks st (TickOutcome.rpcErr :: os) = runTicks st os) := by
  refine ⟨?_, ?_, ?_⟩
  · intro st h
    simp [refreshStatus, h]
  · intro st h
    simp [refreshStatus, h]
  · intro st os h
    simp [runTicks, refreshStatus, h]

/-- Witness for C5: a failing startup tick exits to the configuration
prompt; a failing tick with plugins loaded is swallowed and drops out of
the run. -/
theorem c5_tick_failure_policy_witness :
    refreshStatus ⟨none, false⟩ TickOutcome.rpcErr
      = (⟨none, false⟩, TickRes.fatalConfigExit) ∧
    refreshStatus ⟨some 5, true⟩ TickOutcome.rpcErr
      = (⟨some 5, true⟩, TickRes.ret false none) ∧
    runTicks ⟨some 5, true⟩ [TickOutcome.rpcErr, TickOutcome.ok 6 0 true]
      = runTicks ⟨some 5, true⟩ [TickOutcome.ok 6 0 true] :=
  ⟨c5_tick_failure_policy.1 ⟨none, false⟩ rfl,
   c5_tick_failure_policy.2.1 ⟨some 5, true⟩ rfl,
   c5_tick_failure_policy.2.2 ⟨some 5, true⟩ [TickOutcome.ok 6 0 true] rfl⟩

/-- Counterexample to C6 as stated: observing heights 100, 101, 99 the loop
notifies 101 and then 99 (gui.py line 140 compares with `!=`, not `<`), so
a notification carries the height 99, lower than the previously delivered
101: deliveries are not monotone and not emitted only on increases. -/
theorem c6_counterexample_decreasing :
    (runTicks ⟨none, true⟩ (okTicks [100, 101, 99])).1 = [101, 99] ∧
      (99 : Int) < 101 := by
  exact ⟨rfl, by decide⟩

/-- C6 amended: a notification is emitted once per observed change (not
only increase) of the server height relative to the previous poll, with
the new height as payload; a run from the uninitialized state notifies
exactly the changed heights in order, and the delivered heights are
non-decreasing provided the observed server heights are non-decreasing. -/
theorem c6_change_notification_amended :
    (∀ (c : Int) (pl : Bool) (sb wb : Int),
      refreshStatus ⟨some c, pl⟩ (TickOutcome.ok sb wb true)
        = (⟨some sb, pl⟩,
            TickRes.ret true (if c ≠ sb then some sb else none))) ∧
    (∀ hs : List Int,
      runTicks ⟨none, true⟩ (okTicks hs) = (emittedOfHeights none hs, false)) ∧
    (∀ hs : List Int, List.Chain' (· ≤ ·) hs →
      List.Chain' (· ≤ ·) (emittedOfHeights none hs)) := by
  refine ⟨?_, ?_, ?_⟩
  · intro c pl sb wb
    by_cases hne : c ≠ sb
    · simp [refreshStatus, hne]
    · push_neg at hne
      subst hne
      simp [refreshStatus]
  · intro hs
    exact runTicks_okTicks hs none
  · intro hs hch
    cases hs with
    | nil => simp [emittedOfHeights]
    | cons h1 t =>
      simp only [emittedOfHeights]
      exact (emitted_chain t h1 hch).tail

/-- Witness for C6 amended: a changed height notifies with the new height,
an unchanged height notifies nothing, and a non-decreasing observation
sequence yields non-decreasing notifications. -/
theorem c6_change_notification_amended_witness :
    refreshStatus ⟨some 100, true⟩ (TickOutcome.ok 101 0 true)
      = (⟨some 101, true⟩, TickRes.ret true (some 101)) ∧
    List.Chain' (· ≤ ·) (emittedOfHeights none [100, 101, 101, 103]) := by
  constructor
  · have h := c6_change_notification_amended.1 100 true 101 0
    simpa using h
  · exact c6_change_notification_amended.2.2 [100, 101, 101, 103]
      (by norm_num [List.chain'_cons])

/-- C9: whenever a poll tick fails - including an exception raised by a
plugin `onMessage` handler during the notification fan-out - the recorded
height is left unchanged, because gui.py line 143 assigns it only after
the fan-out of line 141 completes; consequently the next successful tick
observing the same new height starts the same notification again, so the
notification for one height transition can be delivered twice. -/
theorem c9_currentblock_unchanged :
    (∀ (st : LoopState) (o : TickOutcome),
      (refreshStatus st o).2.failed = true → (refreshStatus st o).1 = st) ∧
    (∀ (c h w : Int), c ≠ h →
      runTicks ⟨some c, true⟩
        [TickOutcome.ok h w false, TickOutcome.ok h w true]
        = ([h, h], false)) := by
  constructor
  · intro st o hf
    obtain ⟨cb, pl⟩ := st
    cases o with
    | rpcErr => cases pl <;> rfl
    | ok sb wb fo =>
      cases cb with
      | none => simp [refreshStatus, TickRes.failed] at hf
      | some c =>
        by_cases hne : c ≠ sb
        · cases fo with
          | false => cases pl <;> simp [refreshStatus, hne, TickRes.failed] at hf ⊢
          | true => simp [refreshStatus, hne, TickRes.failed] at hf
        · push_neg at hne
          subst hne
          simp [refreshStatus, TickRes.failed] at hf
  · intro c h w hne
    simp [runTicks, refreshStatus, hne, Option.toList]

/-- Witness for C9: with recorded height 100, a tick observing 101 whose
fan-out raises leaves the state unchanged, and the following successful
tick delivers the 101 notification again. -/
theorem c9_currentblock_unchanged_witness :
    (refreshStatus ⟨some 100, true⟩ (TickOutcome.ok 101 7 false)).1
      = ⟨some 100, true⟩ ∧
    runTicks ⟨some 100, true⟩
        [TickOutcome.ok 101 7 false, TickOutcome.ok 101 7 true]
      = ([101, 101], false) :=
  ⟨c9_currentblock_unchanged.1 ⟨some 100, true⟩ (TickOutcome.ok 101 7 false) rfl,
   c9_currentblock_unchanged.2 100 101 7 (by decide)⟩

/-! ### RPC Gateway call-flow lemmas (claims C1, C7, C10) -/

theorem callModel_exn_plain (fuel : Nat) :
    ∀ (script : Nat → AttemptOutcome) (rd : Bool) (k : Nat) (e : PyExc),
      (callModel script rd fuel k).result = some (CallResult.exn e) →
      ∃ m, e = PyExc.plain m ∧ m ∈ (callModel script rd fuel k).boxes := by
  induction fuel with
  | zero =>
    intro script rd k e h
    simp [callModel] at h
  | succ fuel ih =>
    intro script rd k e h
    cases hs : script k with
    | ok r =>
      rw [show callModel script rd (fuel + 1) k
          = ⟨some (if rd then CallResult.native (encodeV r)
                   else CallResult.variant (encodeV r)), 1, []⟩ from by
        simp [callModel, hs]] at h
      cases rd <;> simp at h
    | err m =>
      rw [show callModel script rd (fuel + 1) k
          = ⟨some (CallResult.exn (PyExc.plain m)), 1, [m]⟩ from by
        simp [callModel, hs, raiseRPC, mkUnopartydRPCError]] at h ⊢
      simp at h
      exact ⟨m, h.symm, by simp⟩
    | locked pw uOk uMsg =>
      cases uOk with
      | false =>
        rw [show callModel script rd (fuel + 1) k
            = ⟨some (CallResult.exn (PyExc.plain uMsg)), 1, [uMsg]⟩ from by
          simp [callModel, hs, raiseRPC, mkUnopartydRPCError]] at h ⊢
        simp at h
        exact ⟨uMsg, h.symm, by simp⟩
      | true =>
        cases hrun : callModel script false fuel (k + 1) with
        | mk res a bs =>
          have ih2 := ih script false (k + 1)
          rw [hrun] at ih2
          cases res with
          | none =>
            rw [show callModel script rd (fuel + 1) k = ⟨none, a + 1, bs⟩ from by
              simp [callModel, hs, hrun]] at h
            simp at h
          | some cr =>
            cases cr with
            | native v =>
              rw [show callModel script rd (fuel + 1) k
                  = ⟨some (CallResult.native v), a + 1, bs⟩ from by
                simp [callModel, hs, hrun]] at h
              simp at h
            | variant v =>
              rw [show callModel script rd (fuel + 1) k
                  = ⟨some (CallResult.variant v), a + 1, bs⟩ from by
                simp [callModel, hs, hrun]] at h
              simp at h
            | exn e0 =>
              obtain ⟨m0, he0, hm0⟩ := ih2 e0 rfl
              subst he0
              rw [show callModel script rd (fuel + 1) k
                  = ⟨some (CallResult.exn (PyExc.plain m0)), a + 1,
                      bs ++ [m0]⟩ from by
                simp [callModel, hs, hrun, raiseRPC, mkUnopartydRPCError,
                  PyExc.str]] at h ⊢
              simp at h
              exact ⟨m0, h.symm, by simp [hm0]⟩

/-- C10: constructing `UnopartydRPCError(message)` (api.py lines 30-40)
shows a modal box with the message and then itself raises a plain generic
`Exception` carrying the same message, so for every failing call through
the Gateway the propagating exception is a plain exception whose message
was shown in a modal box, never the typed `UnopartydRPCError`. -/
theorem c10_rpc_error_plain :
    (∀ m : List Char,
      mkUnopartydRPCError m = ([m], Except.error (PyExc.plain m))) ∧
    (∀ (script : Nat → AttemptOutcome) (rd : Bool) (fuel k : Nat) (e : PyExc),
      (callModel script rd fuel k).result = some (CallResult.exn e) →
      ∃ m, e = PyExc.plain m ∧ m ∈ (callModel script rd fuel k).boxes) :=
  ⟨fun _ => rfl,
   fun script rd fuel k e h => callModel_exn_plain fuel script rd k e h⟩

/-- Witness for C10: a call failing with a generic RPC error propagates a
plain exception whose message was shown in a message box. -/
theorem c10_rpc_error_plain_witness :
    ∃ m, PyExc.plain ['b'] = PyExc.plain m ∧
      m ∈ (callModel (fun _ => AttemptOutcome.err ['b']) true 1 0).boxes :=
  c10_rpc_error_plain.2 (fun _ => AttemptOutcome.err ['b']) true 1 0
    (PyExc.plain ['b']) rfl

theorem allLocked_diverges (pw : List Char) :
    ∀ (fuel k : Nat),
      (callModel (fun _ => AttemptOutcome.locked pw true []) false fuel k).result
        = none := by
  intro fuel
  induction fuel with
  | zero => intro k; rfl
  | succ fuel ih =>
    intro k
    have ih2 := ih (k + 1)
    cases hrun : callModel (fun _ => AttemptOutcome.locked pw true []) false
        fuel (k + 1) with
    | mk res a bs =>
      rw [hrun] at ih2
      cases res with
      | some cr => simp at ih2
      | none => simp [callModel, hrun]


/-- Counterexample to C1 as stated: under `cexScriptC1` the original
request is issued three times (two automatic retries), because the retry
at api.py line 111 is a full recursive `self.call(query)` whose own
locked-wallet failure triggers the recovery flow again; the claim allows
at most two issues (one retry). -/
theorem c1_counterexample_two_retries :
    (callModel cexScriptC1 true 5 0).attempts = 3 ∧
      ¬ (callModel cexScriptC1 true 5 0).attempts ≤ 2 := by
  exact ⟨rfl, by decide⟩

/-- C1 amended: for a locked-wallet failure whose unlock attempt fails, a
fatal error is surfaced after a single issue of the request and no
automatic retry occurs; but after a successful unlock the request is
re-issued through the same recovery flow, so consecutive locked-wallet
outcomes with successful unlocks retry once each, without a global cap:
against an environment that always reports a locked wallet and always
accepts the unlock, the call never returns. -/
theorem c1_locked_retry_amended :
    (∀ (script : Nat → AttemptOutcome) (rd : Bool) (fuel k : Nat)
        (pw m : List Char),
      script k = AttemptOutcome.locked pw false m →
      callModel script rd (fuel + 1) k
        = ⟨some (CallResult.exn (PyExc.plain m)), 1, [m]⟩) ∧
    (∀ (rd : Bool) (fuel k : Nat) (pw : List Char),
      (callModel (fun _ => AttemptOutcome.locked pw true []) rd fuel k).result
        = none) := by
  constructor
  · intro script rd fuel k pw m h
    simp [callModel, h, raiseRPC, mkUnopartydRPCError]
  · intro rd fuel k pw
    cases fuel with
    | zero => rfl
    | succ fuel =>
      have h2 := allLocked_diverges pw fuel (k + 1)
      cases hrun : callModel (fun _ => AttemptOutcome.locked pw true []) false
          fuel (k + 1) with
      | mk res a bs =>
        rw [hrun] at h2
        cases res with
        | some cr => simp at h2
        | none => simp [callModel, hrun]

/-- Witness for C1 amended: a failing unlock surfaces the fatal error with
one issue and no retry; the always-locked environment never returns. -/
theorem c1_locked_retry_amended_witness :
    callModel (fun _ => AttemptOutcome.locked ['p'] false ['e']) true 1 0
      = ⟨some (CallResult.exn (PyExc.plain ['e'])), 1, [['e']]⟩ ∧
    (callModel (fun _ => AttemptOutcome.locked ['p'] true []) true 3 0).result
      = none :=
  ⟨c1_locked_retry_amended.1 (fun _ => AttemptOutcome.locked ['p'] false ['e'])
      true 0 0 ['p'] ['e'] rfl,
   c1_locked_retry_amended.2 true 3 0 ['p']⟩


/-- C7 at the failing input: a call made with `return_dict=True` that goes
through a locked-wallet retry returns the variant-wrapped value, because
the retry `self.call(query)` at api.py line 111 omits `return_dict` and so
defaults to `False`; the same request without the retry returns the native
value the caller asked for. -/
theorem c7_retry_representation_bug :
    callModel c7Script true 3 0
      = ⟨some (CallResult.variant JVal.jnull), 2, []⟩ ∧
    callModel (fun _ => AttemptOutcome.ok JVal.jnull) true 1 0
      = ⟨some (CallResult.native JVal.jnull), 1, []⟩ := by
  exact ⟨rfl, rfl⟩
